import Mathlib

/-!
# Verification of the `cyrtag-fixer` mojibake detection and repair tool

Shallow embedding of `src/main.rs`.  Strings are modelled as `List Char`
(Rust `&str` iterated by `chars()`), byte buffers as `List Nat` (each entry
< 256), and the `f64` score arithmetic as exact rational arithmetic over `ℚ`
(the counts involved are small integers and the weights are the decimal
constants `1.0` and `0.8`, modelled as `1` and `8/10`; every concrete
comparison proved below holds with a wide margin, far beyond `f64` rounding
error).

The windows-1251 codec (crate `encoding_rs`, which implements the WHATWG
Encoding Standard) is embedded by its defining byte↔character table:
* `Encoding::decode` first BOM-sniffs: input starting with the UTF-8 BOM
  `EF BB BF` (resp. the UTF-16 BOMs `FF FE` / `FE FF`) is decoded as UTF-8
  (resp. UTF-16LE/BE) with the BOM removed, with malformed sequences
  replaced by U+FFFD; only BOM-free input is decoded as windows-1251
  proper, which is total: bytes below `0x80` are ASCII, bytes `0x80`–`0xFF`
  go through the index table, and the sole unassigned byte `0x98` decodes
  to U+FFFD;
* `Encoding::encode` maps a character to its single byte when the character
  is in the code page's repertoire, and otherwise substitutes the decimal
  numeric character reference `&#N;` (the documented behaviour of
  `encoding_rs::Encoding::encode` for unmappable characters).
-/

namespace CyrtagFixer

/-- The WHATWG windows-1251 index: pairs `(byte, Unicode code point)` for the
    assigned high bytes `0x80`–`0xFF` (byte `0x98` is unassigned).  Bytes
    `0xC0`–`0xFF` are the contiguous Cyrillic block А..я `0x0410`–`0x044F`. -/
def cp1251Hi : List (Nat × Nat) :=
  [(0x80, 0x0402), (0x81, 0x0403), (0x82, 0x201A), (0x83, 0x0453),
   (0x84, 0x201E), (0x85, 0x2026), (0x86, 0x2020), (0x87, 0x2021),
   (0x88, 0x20AC), (0x89, 0x2030), (0x8A, 0x0409), (0x8B, 0x2039),
   (0x8C, 0x040A), (0x8D, 0x040C), (0x8E, 0x040B), (0x8F, 0x040F),
   (0x90, 0x0452), (0x91, 0x2018), (0x92, 0x2019), (0x93, 0x201C),
   (0x94, 0x201D), (0x95, 0x2022), (0x96, 0x2013), (0x97, 0x2014),
   (0x99, 0x2122), (0x9A, 0x0459), (0x9B, 0x203A), (0x9C, 0x045A),
   (0x9D, 0x045C), (0x9E, 0x045B), (0x9F, 0x045F),
   (0xA0, 0x00A0), (0xA1, 0x040E), (0xA2, 0x045E), (0xA3, 0x0408),
   (0xA4, 0x00A4), (0xA5, 0x0490), (0xA6, 0x00A6), (0xA7, 0x00A7),
   (0xA8, 0x0401), (0xA9, 0x00A9), (0xAA, 0x0404), (0xAB, 0x00AB),
   (0xAC, 0x00AC), (0xAD, 0x00AD), (0xAE, 0x00AE), (0xAF, 0x0407),
   (0xB0, 0x00B0), (0xB1, 0x00B1), (0xB2, 0x0406), (0xB3, 0x0456),
   (0xB4, 0x0491), (0xB5, 0x00B5), (0xB6, 0x00B6), (0xB7, 0x00B7),
   (0xB8, 0x0451), (0xB9, 0x2116), (0xBA, 0x0454), (0xBB, 0x00BB),
   (0xBC, 0x0458), (0xBD, 0x0405), (0xBE, 0x0455), (0xBF, 0x0457)]
  ++ (List.range 64).map (fun i => (0xC0 + i, 0x0410 + i))

/-- windows-1251 decoding of one byte (total; the unassigned byte `0x98`
    yields U+FFFD, as `encoding_rs` replaces malformed input). -/
def decodeByte (b : Nat) : Char :=
  if b < 0x80 then Char.ofNat b
  else
    match cp1251Hi.find? (fun p => p.1 = b) with
    | some p => Char.ofNat p.2
    | none => Char.ofNat 0xFFFD

/-- U+FFFD, the replacement character. -/
def replChar : Char := Char.ofNat 0xFFFD

/-- A UTF-8 continuation byte. -/
def isUtf8Cont (b : Nat) : Bool := 0x80 ≤ b && b ≤ 0xBF

/-- WHATWG UTF-8 decoding with U+FFFD replacement of malformed sequences
    (maximal-subpart policy: a byte that cannot continue the current
    sequence ends it with one replacement character and is itself
    reprocessed; a truncated sequence at end of input yields one
    replacement character). -/
def utf8DecodeLossy : List Nat → List Char
  | [] => []
  | b :: rest =>
    if b ≤ 0x7F then Char.ofNat b :: utf8DecodeLossy rest
    else if 0xC2 ≤ b && b ≤ 0xDF then
      match rest with
      | [] => [replChar]
      | c1 :: r =>
        if isUtf8Cont c1 then
          Char.ofNat ((b - 0xC0) * 0x40 + (c1 - 0x80)) :: utf8DecodeLossy r
        else replChar :: utf8DecodeLossy (c1 :: r)
    else if 0xE0 ≤ b && b ≤ 0xEF then
      -- the second byte's allowed range depends on the lead: E0 forbids
      -- overlong forms, ED forbids surrogates
      let lo := if b = 0xE0 then 0xA0 else 0x80
      let hi := if b = 0xED then 0x9F else 0xBF
      match rest with
      | [] => [replChar]
      | c1 :: r1 =>
        if lo ≤ c1 && c1 ≤ hi then
          match r1 with
          | [] => [replChar]
          | c2 :: r2 =>
            if isUtf8Cont c2 then
              Char.ofNat ((b - 0xE0) * 0x1000 + (c1 - 0x80) * 0x40 + (c2 - 0x80))
                :: utf8DecodeLossy r2
            else replChar :: utf8DecodeLossy (c2 :: r2)
        else replChar :: utf8DecodeLossy (c1 :: r1)
    else if 0xF0 ≤ b && b ≤ 0xF4 then
      -- F0 forbids overlong forms, F4 caps the result at U+10FFFF
      let lo := if b = 0xF0 then 0x90 else 0x80
      let hi := if b = 0xF4 then 0x8F else 0xBF
      match rest with
      | [] => [replChar]
      | c1 :: r1 =>
        if lo ≤ c1 && c1 ≤ hi then
          match r1 with
          | [] => [replChar]
          | c2 :: r2 =>
            if isUtf8Cont c2 then
              match r2 with
              | [] => [replChar]
              | c3 :: r3 =>
                if isUtf8Cont c3 then
                  Char.ofNat ((b - 0xF0) * 0x40000 + (c1 - 0x80) * 0x1000 +
                      (c2 - 0x80) * 0x40 + (c3 - 0x80)) :: utf8DecodeLossy r3
                else replChar :: utf8DecodeLossy (c3 :: r3)
            else replChar :: utf8DecodeLossy (c2 :: r2)
        else replChar :: utf8DecodeLossy (c1 :: r1)
    else replChar :: utf8DecodeLossy rest
termination_by l => l.length
decreasing_by all_goals (simp only [List.length_cons]; omega)

/-- WHATWG UTF-16 decoding (little-endian when `le`, else big-endian) with
    U+FFFD replacement: a lead surrogate followed by a trail surrogate
    combines; a lead surrogate followed by another complete code unit yields
    one replacement and that code unit is reprocessed; an unpaired trail
    surrogate yields one replacement; at end of input a pending lead
    surrogate and/or a lone trailing byte yields a single replacement. -/
def utf16DecodeLossy (le : Bool) : List Nat → List Char
  | [] => []
  | [_] => [replChar]
  | b1 :: b2 :: rest =>
    let u := if le then b2 * 0x100 + b1 else b1 * 0x100 + b2
    if u < 0xD800 || 0xDFFF < u then Char.ofNat u :: utf16DecodeLossy le rest
    else if u ≤ 0xDBFF then
      match rest with
      | b3 :: b4 :: rest2 =>
        let v := if le then b4 * 0x100 + b3 else b3 * 0x100 + b4
        if 0xDC00 ≤ v && v ≤ 0xDFFF then
          Char.ofNat (0x10000 + (u - 0xD800) * 0x400 + (v - 0xDC00))
            :: utf16DecodeLossy le rest2
        else replChar :: utf16DecodeLossy le (b3 :: b4 :: rest2)
      | _ => [replChar]
    else replChar :: utf16DecodeLossy le rest
termination_by l => l.length
decreasing_by all_goals (simp only [List.length_cons]; omega)

/-- Decimal numeric character reference `&#N;`, as a byte list — what
    `encoding_rs` emits for a character absent from the code page. -/
def ncrBytes (n : Nat) : List Nat :=
  0x26 :: 0x23 :: ((Nat.repr n).toList.map Char.toNat ++ [0x3B])

/-- windows-1251 encoding of one character: its byte when mappable,
    otherwise the decimal numeric character reference. -/
def encodeChar (c : Char) : List Nat :=
  if c.toNat < 0x80 then [c.toNat]
  else
    match cp1251Hi.find? (fun p => p.2 = c.toNat) with
    | some p => [p.1]
    | none => ncrBytes c.toNat

/-- `WINDOWS_1251.encode` on a whole string. -/
def encodeW1251 (s : List Char) : List Nat := (s.map encodeChar).flatten

/-- `WINDOWS_1251.decode` on a whole byte buffer (`encoding_rs`'s
    `Encoding::decode`, which BOM-sniffs): input starting with the UTF-8 BOM
    is decoded as UTF-8 with the BOM removed, input starting with a UTF-16
    BOM as UTF-16 of that endianness with the BOM removed, and everything
    else byte-by-byte as windows-1251. -/
def decodeW1251 (bs : List Nat) : List Char :=
  match bs with
  | 0xEF :: 0xBB :: 0xBF :: rest => utf8DecodeLossy rest
  | 0xFF :: 0xFE :: rest => utf16DecodeLossy true rest
  | 0xFE :: 0xFF :: rest => utf16DecodeLossy false rest
  | _ => bs.map decodeByte

/-- The Unicode `White_Space` code points — the set trimmed by Rust's
    `str::trim` (which uses `char::is_whitespace`). -/
def WHITE_SPACE : List Nat :=
  [0x09, 0x0A, 0x0B, 0x0C, 0x0D, 0x20, 0x85, 0xA0, 0x1680,
   0x2000, 0x2001, 0x2002, 0x2003, 0x2004, 0x2005, 0x2006, 0x2007,
   0x2008, 0x2009, 0x200A, 0x2028, 0x2029, 0x202F, 0x205F, 0x3000]

/-- Rust's `char::is_whitespace`. -/
def isRustWhitespace (c : Char) : Bool := WHITE_SPACE.contains c.toNat

/-- Rust's `str::trim`: drop leading and trailing whitespace. -/
def trimChars (s : List Char) : List Char :=
  ((s.dropWhile isRustWhitespace).reverse.dropWhile isRustWhitespace).reverse

/-- `is_cyrillic` from main.rs: membership in U+0400..=U+04FF. -/
def is_cyrillic (c : Char) : Bool :=
  0x400 ≤ c.toNat && c.toNat ≤ 0x4FF

/-- `cyrillic_count` from main.rs. -/
def cyrillic_count (s : List Char) : Nat :=
  (s.filter is_cyrillic).length

/-- The `LATIN_DIACRITICS` set from main.rs. -/
def LATIN_DIACRITICS : List Char :=
  ['ä', 'ö', 'ü', 'ß', 'Ä', 'Ö', 'Ü', 'é', 'è', 'ê', 'ë', 'á', 'à', 'â',
   'å', 'í', 'ì', 'î', 'ó', 'ò', 'ô', 'ú', 'ù', 'û']

/-- `latin_diacritics_count` from main.rs. -/
def latin_diacritics_count (s : List Char) : Nat :=
  (s.filter (fun c => LATIN_DIACRITICS.contains c)).length

/-- `WEIGHT_CYR` from main.rs (`1.0`). -/
def WEIGHT_CYR : ℚ := 1

/-- `WEIGHT_DIACRITICS` from main.rs (`0.8`). -/
def WEIGHT_DIACRITICS : ℚ := 8 / 10

/-- `fix_mojibake` from main.rs.  The source computes
    `cyr_count / len` and `dia_count / len` as `f64`; when `len = 0` both
    are `NaN`, the score is `NaN`, and `NaN > threshold` is `false`, so the
    function returns `None` — modelled here by the explicit `len = 0`
    branch. -/
def fix_mojibake (text : List Char) (cyr_threshold : ℚ) : Option (List Char) :=
  if cyrillic_count text > 0 then none
  else
    let latin1_bytes := encodeW1251 text
    let decoded := decodeW1251 latin1_bytes
    let decoded_str := trimChars decoded
    let len : ℚ := decoded_str.length
    if len = 0 then none
    else
      let cyr_frac := (cyrillic_count decoded_str : ℚ) / len
      let dia_frac := (latin_diacritics_count text : ℚ) / len
      let score := WEIGHT_CYR * cyr_frac - WEIGHT_DIACRITICS * dia_frac
      if score > cyr_threshold then some decoded_str else none

/-- The candidate repair string of `fix_mojibake`: the windows-1251
    round-trip of the input, trimmed. -/
def candidate (text : List Char) : List Char :=
  trimChars (decodeW1251 (encodeW1251 text))

/-- The detector's score, with both fractions normalized by the candidate
    repair string's character count (as in the source). -/
def scoreOf (text : List Char) : ℚ :=
  WEIGHT_CYR * ((cyrillic_count (candidate text) : ℚ) / (candidate text).length)
    - WEIGHT_DIACRITICS * ((latin_diacritics_count text : ℚ) / (candidate text).length)

/-- UTF-8 encoding of one character (Rust `str::as_bytes` on the re-encoded
    content written by `process_cue`). -/
def utf8Bytes1 (c : Char) : List Nat :=
  let n := c.toNat
  if n < 0x80 then [n]
  else if n < 0x800 then [0xC0 + n / 0x40, 0x80 + n % 0x40]
  else if n < 0x10000 then
    [0xE0 + n / 0x1000, 0x80 + (n / 0x40) % 0x40, 0x80 + n % 0x40]
  else
    [0xF0 + n / 0x40000, 0x80 + (n / 0x1000) % 0x40,
     0x80 + (n / 0x40) % 0x40, 0x80 + n % 0x40]

/-- UTF-8 encoding of a string. -/
def utf8Bytes (s : List Char) : List Nat := (s.map utf8Bytes1).flatten

/-- Strict UTF-8 validity of a byte sequence (the check behind Rust's
    `String::from_utf8(raw).is_ok()` in `process_cue`): no overlong forms,
    no surrogates, at most U+10FFFF. -/
def utf8Valid : List Nat → Bool
  | [] => true
  | b :: rest =>
    if b ≤ 0x7F then utf8Valid rest
    else if 0xC2 ≤ b && b ≤ 0xDF then
      match rest with
      | c1 :: r => isUtf8Cont c1 && utf8Valid r
      | [] => false
    else if b = 0xE0 then
      match rest with
      | c1 :: c2 :: r => (0xA0 ≤ c1 && c1 ≤ 0xBF) && isUtf8Cont c2 && utf8Valid r
      | _ => false
    else if (0xE1 ≤ b && b ≤ 0xEC) || (0xEE ≤ b && b ≤ 0xEF) then
      match rest with
      | c1 :: c2 :: r => isUtf8Cont c1 && isUtf8Cont c2 && utf8Valid r
      | _ => false
    else if b = 0xED then
      match rest with
      | c1 :: c2 :: r => (0x80 ≤ c1 && c1 ≤ 0x9F) && isUtf8Cont c2 && utf8Valid r
      | _ => false
    else if b = 0xF0 then
      match rest with
      | c1 :: c2 :: c3 :: r =>
        (0x90 ≤ c1 && c1 ≤ 0xBF) && isUtf8Cont c2 && isUtf8Cont c3 && utf8Valid r
      | _ => false
    else if 0xF1 ≤ b && b ≤ 0xF3 then
      match rest with
      | c1 :: c2 :: c3 :: r =>
        isUtf8Cont c1 && isUtf8Cont c2 && isUtf8Cont c3 && utf8Valid r
      | _ => false
    else if b = 0xF4 then
      match rest with
      | c1 :: c2 :: c3 :: r =>
        (0x80 ≤ c1 && c1 ≤ 0x8F) && isUtf8Cont c2 && isUtf8Cont c3 && utf8Valid r
      | _ => false
    else false

/-- `BackupManager` from main.rs. -/
structure BackupManager where
  no_backup : Bool
deriving DecidableEq

/-- `BackupManager::backup_file`: trivially succeeds when `no_backup` is
    set, otherwise succeeds exactly when the underlying copy succeeds
    (modelled by the `ioOk` oracle). -/
def backup_file (bm : BackupManager) (ioOk : Bool) : Bool :=
  bm.no_backup || ioOk

/-- Observable outcome of one `process_cue` call.  `written` is the byte
    content passed to `fs::write` when a write was attempted;
    `detectorCalls` counts invocations of `fix_mojibake` (the source of
    `process_cue` contains none). -/
structure CueResult where
  ret : Bool
  backupCalled : Bool
  backupSucceeded : Bool
  writeAttempted : Bool
  written : Option (List Nat)
  detectorCalls : Nat
deriving DecidableEq

/-- `process_cue` from main.rs.  `raw` is the result of reading the file
    (`none` = read error); `backupIoOk` and `writeIoOk` are oracles for the
    success of the backup copy and of `fs::write`. -/
def process_cue (raw : Option (List Nat)) (bm : BackupManager)
    (force_cp1251 : Bool) (backupIoOk : Bool) (writeIoOk : Bool) : CueResult :=
  match raw with
  | none => ⟨false, false, false, false, none, 0⟩
  | some bytes =>
    let contentQ : Option (List Char) :=
      if force_cp1251 then some (decodeW1251 bytes)
      else if utf8Valid bytes then none
      else some (decodeW1251 bytes)
    match contentQ with
    | none => ⟨false, false, false, false, none, 0⟩
    | some content =>
      if backup_file bm backupIoOk then
        if writeIoOk then ⟨true, true, true, true, some (utf8Bytes content), 0⟩
        else ⟨false, true, true, true, some (utf8Bytes content), 0⟩
      else ⟨false, true, false, false, none, 0⟩

/-- Observable outcome of one `process_audio` call.  `savedTag` is the tag
    content passed to `save_to_path` when a save was attempted. -/
structure AudioResult where
  ret : Bool
  backupCalled : Bool
  backupSucceeded : Bool
  writeAttempted : Bool
  savedTag : Option (List (Nat × Option (List Char)))
deriving DecidableEq

/-- `process_audio` from main.rs.  `tagItems` is the selected tag's item
    list, each item a key paired with its optional text value (`none` for
    the whole argument = probe failure or no tag, both of which return
    `false` before any further action); `backupIoOk` and `saveIoOk` are
    oracles for the backup copy and `save_to_path`. -/
def process_audio (tagItems : Option (List (Nat × Option (List Char))))
    (bm : BackupManager) (cyr_threshold : ℚ)
    (backupIoOk : Bool) (saveIoOk : Bool) : AudioResult :=
  match tagItems with
  | none => ⟨false, false, false, false, none⟩
  | some items =>
    let fixes : List (Nat × List Char) :=
      items.filterMap (fun it =>
        match it.2 with
        | some text => (fix_mojibake text cyr_threshold).map (fun fixed => (it.1, fixed))
        | none => none)
    if fixes.isEmpty then ⟨false, false, false, false, none⟩
    else
      let newTag := fixes.foldl
        (fun acc kv => acc.map (fun it => if it.1 = kv.1 then (it.1, some kv.2) else it))
        items
      if backup_file bm backupIoOk then
        if saveIoOk then ⟨true, true, true, true, some newTag⟩
        else ⟨false, true, true, true, some newTag⟩
      else ⟨false, true, false, false, none⟩

/-- Well-formedness of a detector result: a repaired string is non-empty,
    has no leading or trailing whitespace, and contains a Cyrillic-block
    character. -/
def repairOk : Option (List Char) → Bool
  | none => true
  | some r =>
    !r.isEmpty && r.head?.all (fun c => !isRustWhitespace c)
      && r.getLast?.all (fun c => !isRustWhitespace c)
      && (cyrillic_count r != 0)

/-- Modelled from the claim's words, for comparison with `scoreOf`: the
    score with the diacritic fraction normalized by the ORIGINAL text's
    character count ("the diacritic count divided by the original text's
    character count") instead of the candidate's. -/
def claimedScore (text : List Char) : ℚ :=
  WEIGHT_CYR * ((cyrillic_count (candidate text) : ℚ) / (candidate text).length)
    - WEIGHT_DIACRITICS * ((latin_diacritics_count text : ℚ) / text.length)

/-- The backup/write ordering contract of a processor run: a write is only
    ever attempted after `backup_file` was called and succeeded and content
    was produced, and a failed backup aborts the file with no write and a
    `false` return. -/
def mutationContract (backupCalled backupSucceeded writeAttempted ret produced : Bool) :
    Prop :=
  (writeAttempted = true →
      backupCalled = true ∧ backupSucceeded = true ∧ produced = true) ∧
  (backupCalled = true ∧ backupSucceeded = false →
      ret = false ∧ writeAttempted = false)

/-- Unfolding of `fix_mojibake` in terms of `candidate` and `scoreOf`. -/
lemma fix_mojibake_eq (t : List Char) (θ : ℚ) :
    fix_mojibake t θ =
      if 0 < cyrillic_count t then none
      else if ((candidate t).length : ℚ) = 0 then none
      else if scoreOf t > θ then some (candidate t) else none := rfl

/-- `trimChars` is `List.rdropWhile` after `List.dropWhile`. -/
lemma trimChars_eq_rdropWhile (l : List Char) :
    trimChars l = (l.dropWhile isRustWhitespace).rdropWhile isRustWhitespace := rfl

/-- The head surviving `dropWhile p` does not satisfy `p`. -/
lemma dropWhile_head?_false {α : Type} {p : α → Bool} {l : List α} {x : α}
    (h : (l.dropWhile p).head? = some x) : p x = false := by
  have hne : l.dropWhile p ≠ [] := by
    intro e
    rw [e] at h
    exact Option.noConfusion h
  have hx : x = (l.dropWhile p).head hne := by
    rw [List.head?_eq_head hne] at h
    exact (Option.some_inj.mp h).symm
  have := List.head_dropWhile_not p l hne
  simp only [hx]
  exact Bool.not_eq_true _ ▸ by simpa using this

/-- A trimmed string has no leading whitespace. -/
lemma trimChars_head?_all (l : List Char) :
    (trimChars l).head?.all (fun c => !isRustWhitespace c) = true := by
  rw [trimChars_eq_rdropWhile]
  set a := l.dropWhile isRustWhitespace with ha
  cases h : (a.rdropWhile isRustWhitespace).head? with
  | none => rfl
  | some x =>
    obtain ⟨s, hs⟩ := List.dropWhile_suffix (l := a.reverse) isRustWhitespace
    have ht : a.rdropWhile isRustWhitespace ++ s.reverse = a := by
      rw [List.rdropWhile, ← List.reverse_append, hs, List.reverse_reverse]
    have hne : a.rdropWhile isRustWhitespace ≠ [] := by
      intro e
      rw [e] at h
      exact Option.noConfusion h
    have hhead : a.head? = some x := by
      rw [← ht, List.head?_append_of_ne_nil _ hne, h]
    have := dropWhile_head?_false (ha ▸ hhead)
    simp [h, this]

/-- A trimmed string has no trailing whitespace. -/
lemma trimChars_getLast?_all (l : List Char) :
    (trimChars l).getLast?.all (fun c => !isRustWhitespace c) = true := by
  rw [trimChars_eq_rdropWhile, List.rdropWhile]
  rw [List.getLast?_reverse]
  cases h : ((l.dropWhile isRustWhitespace).reverse.dropWhile isRustWhitespace).head? with
  | none => rfl
  | some x =>
    have := dropWhile_head?_false h
    simp [h, this]

/-- `fix_mojibake` returns early when the input already has Cyrillic. -/
lemma fix_mojibake_none_of_cyr {t : List Char} (θ : ℚ)
    (h : 0 < cyrillic_count t) : fix_mojibake t θ = none := by
  rw [fix_mojibake_eq, if_pos h]

/-- Characterization of a successful repair. -/
lemma fix_mojibake_eq_some {t r : List Char} {θ : ℚ} :
    fix_mojibake t θ = some r ↔
      cyrillic_count t = 0 ∧ (candidate t).length ≠ 0 ∧ scoreOf t > θ ∧
        r = candidate t := by
  rw [fix_mojibake_eq]
  split_ifs with h1 h2 h3
  · simp [Nat.pos_iff_ne_zero.mp h1]
  · rw [Nat.cast_eq_zero] at h2
    simp [h2]
  · have h1' : cyrillic_count t = 0 := Nat.eq_zero_of_not_pos h1
    have h2' : (candidate t).length ≠ 0 := fun e => h2 (by exact_mod_cast e)
    simp [h1', h2', h3, eq_comm]
  · have h2' : (candidate t).length ≠ 0 := fun e => h2 (by exact_mod_cast e)
    simp [h2', h3]

/-- A repair accepted at a non-negative threshold contains Cyrillic: the
    diacritic term is non-positive, so a positive score forces a positive
    Cyrillic count in the candidate. -/
lemma cyr_pos_of_fix_some {t r : List Char} {θ : ℚ}
    (hθ : 0 ≤ θ) (h : fix_mojibake t θ = some r) : 0 < cyrillic_count r := by
  obtain ⟨h0, hlen, hsc, hr⟩ := fix_mojibake_eq_some.mp h
  subst hr
  by_contra hc
  have hc0 : cyrillic_count (candidate t) = 0 := Nat.eq_zero_of_not_pos hc
  have hlenQ : (0 : ℚ) < ((candidate t).length : ℚ) := by
    exact_mod_cast Nat.pos_of_ne_zero hlen
  have hd : (0 : ℚ) ≤ (latin_diacritics_count t : ℚ) / ((candidate t).length : ℚ) :=
    div_nonneg (by positivity) (le_of_lt hlenQ)
  have hscore : scoreOf t ≤ 0 := by
    rw [scoreOf, hc0, WEIGHT_CYR, WEIGHT_DIACRITICS]
    push_cast
    rw [zero_div]
    linarith
  linarith

/-- Evaluation helper: `fix_mojibake ['a'] θ = some ['a']` for negative θ
    (ASCII text round-trips to itself and scores exactly 0). -/
lemma fix_ascii_a (θ : ℚ) (hθ : θ < 0) : fix_mojibake ['a'] θ = some ['a'] := by
  have h1 : cyrillic_count ['a'] = 0 := by decide
  have h2 : candidate ['a'] = ['a'] := by decide
  have h3 : latin_diacritics_count ['a'] = 0 := by decide
  have h4 : (['a'] : List Char).length = 1 := by decide
  refine fix_mojibake_eq_some.mpr ⟨h1, by rw [h2, h4]; omega, ?_, h2.symm⟩
  rw [scoreOf, h2, h1, h3, h4, WEIGHT_CYR, WEIGHT_DIACRITICS]
  push_cast
  linarith

/-- Evaluation helper: `fix_mojibake "abc" θ = some "abc"` for negative θ. -/
lemma fix_ascii_abc (θ : ℚ) (hθ : θ < 0) :
    fix_mojibake "abc".toList θ = some "abc".toList := by
  have h1 : cyrillic_count "abc".toList = 0 := by decide
  have h2 : candidate "abc".toList = "abc".toList := by decide
  have h3 : latin_diacritics_count "abc".toList = 0 := by decide
  have h4 : ("abc".toList).length = 3 := by decide
  refine fix_mojibake_eq_some.mpr ⟨h1, by rw [h2, h4]; omega, ?_, h2.symm⟩
  rw [scoreOf, h2, h1, h3, h4, WEIGHT_CYR, WEIGHT_DIACRITICS]
  push_cast
  linarith

/-- C1: for every input text containing at least one character in the
    Cyrillic Unicode block U+0400–U+04FF, and for every threshold value,
    `fix_mojibake` returns `none`, leaving such text untouched. -/
theorem C1_conservative (t : List Char) (θ : ℚ) (h : 0 < cyrillic_count t) :
    fix_mojibake t θ = none :=
  fix_mojibake_none_of_cyr θ h

/-- Witness for C1 at the one-character Cyrillic text "и" and the default
    threshold 0.2. -/
theorem C1_conservative_witness :
    0 < cyrillic_count ['и'] ∧ fix_mojibake ['и'] (1 / 5) = none :=
  ⟨by decide, C1_conservative ['и'] (1 / 5) (by decide)⟩

/-- C2 counterexample: on the input "ä" with threshold −1/2 the code
    produces a repair (it scores −0.8·(1/6), the diacritic count divided by
    the CANDIDATE string "&#228;"'s six characters), while the claim's score
    −0.8·(1/1) — the diacritic count divided by the ORIGINAL text's one
    character — does not exceed the threshold, so the claim's
    "exactly when" equivalence fails on the code. -/
theorem C2_divisor_cex :
    fix_mojibake ['ä'] (-1 / 2) = some "&#228;".toList ∧
      ¬ claimedScore ['ä'] > -1 / 2 := by
  have h1 : cyrillic_count ['ä'] = 0 := by decide
  have h2 : candidate ['ä'] = "&#228;".toList := by decide
  have h3 : latin_diacritics_count ['ä'] = 1 := by decide
  have h4 : cyrillic_count "&#228;".toList = 0 := by decide
  have h5 : ("&#228;".toList).length = 6 := by decide
  constructor
  · refine fix_mojibake_eq_some.mpr ⟨h1, by rw [h2, h5]; omega, ?_, h2.symm⟩
    rw [scoreOf, h2, h4, h3, h5, WEIGHT_CYR, WEIGHT_DIACRITICS]
    push_cast
    norm_num
  · rw [claimedScore, h2, h4, h3, h5, WEIGHT_CYR, WEIGHT_DIACRITICS]
    have h6 : (['ä'] : List Char).length = 1 := by decide
    rw [h6]
    push_cast
    norm_num

/-- C2 amended: for every non-empty input text with no Cyrillic-block
    characters, the detector's score equals 1.0 times the fraction of the
    candidate repair string's characters that are Cyrillic, minus 0.8 times
    the diacritic count of the ORIGINAL text divided by the CANDIDATE repair
    string's character count, and a repair (of exactly the candidate) is
    returned exactly when the candidate is non-empty and this score strictly
    exceeds the caller-supplied threshold. -/
theorem C2_score_amended (t : List Char) (θ : ℚ) (h0 : cyrillic_count t = 0)
    (h1 : t ≠ []) :
    fix_mojibake t θ =
      if (candidate t).length ≠ 0 ∧ scoreOf t > θ
      then some (candidate t) else none := by
  rw [fix_mojibake_eq, if_neg (by omega : ¬ 0 < cyrillic_count t)]
  by_cases hl : (candidate t).length = 0
  · rw [if_pos (by exact_mod_cast hl), if_neg (by simp [hl])]
  · rw [if_neg (by exact_mod_cast hl)]
    by_cases hs : scoreOf t > θ
    · rw [if_pos hs, if_pos ⟨hl, hs⟩]
    · rw [if_neg hs, if_neg (by simp [hs])]

/-- Witness for the amended C2 at the input "a" with threshold −1. -/
theorem C2_score_amended_witness :
    cyrillic_count ['a'] = 0 ∧ (['a'] : List Char) ≠ [] ∧
      fix_mojibake ['a'] (-1) =
        (if (candidate ['a']).length ≠ 0 ∧ scoreOf ['a'] > -1
         then some (candidate ['a']) else none) :=
  ⟨by decide, by decide, C2_score_amended ['a'] (-1) (by decide) (by decide)⟩

/-- C3 counterexample: with the negative threshold −1, the Cyrillic-free
    text "abc" is "repaired" to itself (score 0 > −1), and the second
    application flags it again, so
    `fix_mojibake (fix_mojibake t θ |>.getD t) θ` is not `none` for every
    threshold. -/
theorem C3_idem_cex :
    cyrillic_count "abc".toList = 0 ∧
      fix_mojibake ((fix_mojibake "abc".toList (-1)).getD "abc".toList) (-1)
        ≠ none := by
  refine ⟨by decide, ?_⟩
  rw [fix_ascii_abc (-1) (by norm_num), Option.getD_some,
    fix_ascii_abc (-1) (by norm_num)]
  exact Option.some_ne_none _

/-- C3 amended: for every text with zero Cyrillic-block characters and
    every NON-NEGATIVE threshold θ, applying `fix_mojibake` to the result of
    a first application (taking the repaired string if `some`, otherwise the
    text itself) yields `none`. -/
theorem C3_idempotent_amended (t : List Char) (θ : ℚ)
    (h0 : cyrillic_count t = 0) (hθ : 0 ≤ θ) :
    fix_mojibake ((fix_mojibake t θ).getD t) θ = none := by
  cases h : fix_mojibake t θ with
  | none => rw [Option.getD_none]; exact h
  | some r =>
    rw [Option.getD_some]
    exact fix_mojibake_none_of_cyr θ (cyr_pos_of_fix_some hθ h)

/-- Witness for the amended C3 at the text "abc" and threshold 0. -/
theorem C3_idempotent_amended_witness :
    cyrillic_count "abc".toList = 0 ∧ (0 : ℚ) ≤ 0 ∧
      fix_mojibake ((fix_mojibake "abc".toList 0).getD "abc".toList) 0 = none :=
  ⟨by decide, le_refl 0,
    C3_idempotent_amended "abc".toList 0 (by decide) (le_refl 0)⟩

/-- C4: the round-trip example is broken in the code: re-encoding
    "Ëüâèöà ðîêà" through the windows-1251 encoder turns every accented
    Latin letter into a decimal numeric character reference (the encoder's
    unmappable-character replacement), so the round-trip yields
    "&#203;&#252;&#226;&#232;&#246;&#224; &#240;&#238;&#234;&#224;" rather
    than "Львица рока", and at threshold 0.2 the decision is `none`, not
    `Some("Львица рока")` — contradicting the spec and the function's own
    doc comment. -/
theorem C4_roundtrip_bug :
    candidate "Ëüâèöà ðîêà".toList =
      "&#203;&#252;&#226;&#232;&#246;&#224; &#240;&#238;&#234;&#224;".toList ∧
    candidate "Ëüâèöà ðîêà".toList ≠ "Львица рока".toList ∧
      fix_mojibake "Ëüâèöà ðîêà".toList (1 / 5) = none := by
  have h1 : cyrillic_count "Ëüâèöà ðîêà".toList = 0 := by decide
  have h2 : candidate "Ëüâèöà ðîêà".toList =
      "&#203;&#252;&#226;&#232;&#246;&#224; &#240;&#238;&#234;&#224;".toList := by decide
  have h3 : latin_diacritics_count "Ëüâèöà ðîêà".toList = 8 := by decide
  have h4 : cyrillic_count
      "&#203;&#252;&#226;&#232;&#246;&#224; &#240;&#238;&#234;&#224;".toList = 0 := by decide
  have h5 : ("&#203;&#252;&#226;&#232;&#246;&#224; &#240;&#238;&#234;&#224;".toList).length
      = 61 := by decide
  refine ⟨h2, by rw [h2]; decide, ?_⟩
  rw [fix_mojibake_eq, if_neg (by omega : ¬ 0 < cyrillic_count "Ëüâèöà ðîêà".toList),
    if_neg (by rw [h2, h5]; norm_num)]
  rw [if_neg ?_]
  rw [scoreOf, h2, h4, h3, h5, WEIGHT_CYR, WEIGHT_DIACRITICS]
  push_cast
  norm_num

/-- C5: threshold monotonicity — if a repair is produced at threshold θ₁,
    the same repair is produced at any lower threshold θ₂. -/
theorem C5_threshold_mono (t : List Char) (θ₁ θ₂ : ℚ) (r : List Char)
    (h : fix_mojibake t θ₁ = some r) (hlt : θ₂ < θ₁) :
    fix_mojibake t θ₂ = some r := by
  obtain ⟨h0, hlen, hsc, hr⟩ := fix_mojibake_eq_some.mp h
  exact fix_mojibake_eq_some.mpr ⟨h0, hlen, lt_trans hlt hsc, hr⟩

/-- Witness for C5: a repair accepted at −1 is still accepted at −2. -/
theorem C5_threshold_mono_witness :
    fix_mojibake ['a'] (-1) = some ['a'] ∧ (-2 : ℚ) < -1 ∧
      fix_mojibake ['a'] (-2) = some ['a'] := by
  have h : fix_mojibake ['a'] (-1) = some ['a'] := fix_ascii_a (-1) (by norm_num)
  exact ⟨h, by norm_num, C5_threshold_mono ['a'] (-1) (-2) ['a'] h (by norm_num)⟩

/-- C6: without the force flag, `process_cue` on a file whose raw bytes are
    valid UTF-8 returns false (not modified), attempts no write, calls no
    backup, and never invokes the mojibake detector. -/
theorem C6_cue_utf8_skip (raw : List Nat) (bm : BackupManager)
    (backupIoOk writeIoOk : Bool) (h : utf8Valid raw = true) :
    process_cue (some raw) bm false backupIoOk writeIoOk =
      ⟨false, false, false, false, none, 0⟩ := by
  simp [process_cue, h]

/-- Witness for C6 on the ASCII cue content "REM". -/
theorem C6_cue_utf8_skip_witness :
    utf8Valid [0x52, 0x45, 0x4D] = true ∧
      process_cue (some [0x52, 0x45, 0x4D]) ⟨false⟩ false true true =
        ⟨false, false, false, false, none, 0⟩ :=
  ⟨by decide, C6_cue_utf8_skip [0x52, 0x45, 0x4D] ⟨false⟩ true true (by decide)⟩

/-- C7: in both processors, a write is only ever attempted after content
    was produced and `backup_file` was called and succeeded; if the backup
    fails, processing of that file aborts with no write attempt and a
    `false` return. -/
theorem C7_backup_gating (raw : Option (List Nat))
    (tagItems : Option (List (Nat × Option (List Char))))
    (bmc bma : BackupManager) (force : Bool) (θ : ℚ)
    (cb cw ab aw : Bool) :
    mutationContract (process_cue raw bmc force cb cw).backupCalled
        (process_cue raw bmc force cb cw).backupSucceeded
        (process_cue raw bmc force cb cw).writeAttempted
        (process_cue raw bmc force cb cw).ret
        (process_cue raw bmc force cb cw).written.isSome ∧
      mutationContract (process_audio tagItems bma θ ab aw).backupCalled
        (process_audio tagItems bma θ ab aw).backupSucceeded
        (process_audio tagItems bma θ ab aw).writeAttempted
        (process_audio tagItems bma θ ab aw).ret
        (process_audio tagItems bma θ ab aw).savedTag.isSome := by
  constructor
  · rcases raw with _ | bytes
    · simp [process_cue, mutationContract]
    · cases force <;> cases hu : utf8Valid bytes <;>
        simp [process_cue, mutationContract, hu] <;> split_ifs <;> simp
  · rcases tagItems with _ | items
    · simp [process_audio, mutationContract]
    · simp only [process_audio, mutationContract]
      split <;> (try split_ifs) <;> simp

/-- Witness for C7: a failing backup on a force-decoded cue file yields no
    write and a `false` return. -/
theorem C7_backup_gating_witness :
    (process_cue (some [0xC0]) ⟨false⟩ true false true).ret = false ∧
      (process_cue (some [0xC0]) ⟨false⟩ true false true).writeAttempted = false := by
  have h := C7_backup_gating (some [0xC0]) none ⟨false⟩ ⟨false⟩ true 0 false true true true
  unfold mutationContract at h
  exact h.1.2 ⟨by decide, by decide⟩

/-- C8: whenever the candidate repair string is empty after trimming (in
    particular for empty or ASCII-whitespace-only input), `fix_mojibake`
    returns `none` for every threshold — the division by the candidate's
    character count never turns empty text into a repair. -/
theorem C8_empty_guard (t : List Char) (θ : ℚ) (h : candidate t = []) :
    fix_mojibake t θ = none := by
  rw [fix_mojibake_eq, h]
  simp

/-- Witness for C8 on whitespace-only input at a very permissive negative
    threshold. -/
theorem C8_empty_guard_witness :
    candidate [' ', '\t'] = [] ∧ fix_mojibake [' ', '\t'] (-5) = none :=
  ⟨by decide, C8_empty_guard [' ', '\t'] (-5) (by decide)⟩

/-- C9: at any non-negative threshold, a repaired string returned by
    `fix_mojibake` is non-empty, has no leading or trailing whitespace, and
    contains at least one Cyrillic-block character. -/
theorem C9_repair_shape (t : List Char) (θ : ℚ) (hθ : 0 ≤ θ) :
    repairOk (fix_mojibake t θ) = true := by
  cases h : fix_mojibake t θ with
  | none => rfl
  | some r =>
    obtain ⟨h0, hlen, hsc, hr⟩ := fix_mojibake_eq_some.mp h
    have hcyr : cyrillic_count r ≠ 0 :=
      Nat.pos_iff_ne_zero.mp (cyr_pos_of_fix_some hθ h)
    have hne : r ≠ [] := by
      intro e
      exact hlen (by rw [← hr, e]; rfl)
    have hh : r.head?.all (fun c => !isRustWhitespace c) = true := by
      rw [hr]
      exact trimChars_head?_all (decodeW1251 (encodeW1251 t))
    have hg : r.getLast?.all (fun c => !isRustWhitespace c) = true := by
      rw [hr]
      exact trimChars_getLast?_all (decodeW1251 (encodeW1251 t))
    simp [repairOk, hne, hh, hg, hcyr]

/-- Witness for C9 at the text "q" and threshold 0. -/
theorem C9_repair_shape_witness :
    (0 : ℚ) ≤ 0 ∧ repairOk (fix_mojibake ['q'] 0) = true :=
  ⟨le_refl 0, C9_repair_shape ['q'] 0 (le_refl 0)⟩

/-- C10: with the force flag set, `process_cue` applies no content check or
    scoring: whenever the file can be read, backed up and written, it
    returns true and rewrites the file with the cp1251-decoded content
    re-encoded as UTF-8 — for any raw content whatsoever. -/
theorem C10_force_rewrites (raw : List Nat) (bm : BackupManager)
    (backupIoOk : Bool) (hb : backup_file bm backupIoOk = true) :
    process_cue (some raw) bm true backupIoOk true =
      ⟨true, true, true, true, some (utf8Bytes (decodeW1251 raw)), 0⟩ := by
  simp [process_cue, hb]

/-- Witness for C10 on the pure-ASCII cue content "REM": the rewritten
    bytes are identical to the original, and the file is still rewritten and
    counted as fixed. -/
theorem C10_force_rewrites_witness :
    backup_file ⟨false⟩ true = true ∧
      process_cue (some [0x52, 0x45, 0x4D]) ⟨false⟩ true true true =
        ⟨true, true, true, true, some [0x52, 0x45, 0x4D], 0⟩ := by
  refine ⟨by decide, ?_⟩
  rw [C10_force_rewrites [0x52, 0x45, 0x4D] ⟨false⟩ true (by decide)]
  decide

end CyrtagFixer
